import Mathlib

/-!
Shallow embedding of `src/mturk_dash.py` (an MTurk dashboard).

Python dicts with string keys are modelled as association lists built only
through `dictSet` / `dictUpdate`; `json.loads` is modelled as an abstract
decoder parameter `jloads : String → Option Dict` (returning `none` when the
text is not a valid JSON object); datetimes are modelled as integer epoch
seconds, so `submit_time - accept_time` is an integer number of seconds and
Python's `timedelta.seconds` component is `emod 86400`.
-/

namespace MturkDash

/-- A Python value stored in a record dict (strings and integers suffice for
the fields the dashboard manipulates; decoded payload values are opaque). -/
inductive PyVal where
  | s (v : String)
  | n (v : Int)
deriving DecidableEq, Repr

/-- A Python dict with string keys, as an association list. -/
abbrev Dict := List (String × PyVal)

/-- Dict lookup (`d[k]` / `d.get(k)`): first matching key. -/
def dictGet (d : Dict) (k : String) : Option PyVal :=
  (d.find? (fun p => p.1 == k)).map Prod.snd

/-- Dict item assignment `d[k] = v`: replaces the value in place if the key
exists, otherwise appends the pair. -/
def dictSet (d : Dict) (k : String) (v : PyVal) : Dict :=
  match d with
  | [] => [(k, v)]
  | (k', v') :: rest => if k' = k then (k, v) :: rest else (k', v') :: dictSet rest k v

/-- Python `d.update(other)`: assign each of `other`'s pairs in order. -/
def dictUpdate (d : Dict) (other : Dict) : Dict :=
  other.foldl (fun acc p => dictSet acc p.1 p.2) d

/-- A child node of a `FreeText` element: a text node (with its `nodeValue`)
or a non-text node, which `parse_answer` skips. -/
inductive ChildNode where
  | text (v : String)
  | other
deriving DecidableEq, Repr

/-- The `nodeValue` of a text child, `none` for non-text children. -/
def nodeText : ChildNode → Option String
  | .text v => some v
  | .other => none

/-- A `FreeText` element is its list of child nodes. -/
abbrev FreeTextNode := List ChildNode

/-- The raw `Answer` field of an assignment: either XML that fails to parse,
or a parsed document given by its list of `FreeText` elements. -/
inductive Answer where
  | malformed
  | wellFormed (freeTexts : List FreeTextNode)
deriving DecidableEq, Repr

/-- The Python exceptions that can escape `parse_answer`. -/
inductive PErr where
  | xmlError
  | assertionError
  | indexError
  | jsonError
deriving DecidableEq, Repr

/-- Embedding of `parse_answer` (src/mturk_dash.py:78-86): parse the XML,
collect the `FreeText` elements, `assert len(free_text_nodes) <= 1`, take
element 0 (IndexError when there is none), join the text children with a
space, and decode with `json.loads` (modelled by `jloads`). -/
def parse_answer (jloads : String → Option Dict) : Answer → Except PErr Dict
  | .malformed => .error .xmlError
  | .wellFormed nodes =>
    if nodes.length ≤ 1 then
      match nodes with
      | [] => .error .indexError
      | node :: _ =>
        match jloads (String.intercalate " " (node.filterMap nodeText)) with
        | none => .error .jsonError
        | some d => .ok d
    else .error .assertionError

/-- A raw assignment record as returned by `list_assignments_for_hit`. -/
structure Assignment where
  acceptTime : Int
  submitTime : Int
  hitId : String
  assignmentId : String
  workerId : String
  assignmentStatus : String
  answer : Answer
deriving DecidableEq, Repr

/-- Python's `timedelta.seconds` component of a delta of `d` whole seconds:
the delta is normalised to `days * 86400 + seconds` with
`0 ≤ seconds < 86400`, so the component is `d mod 86400` (floor mod). -/
def tdSeconds (d : Int) : Int := d.emod 86400

/-- The base record built by `parse_assignment` before answer decoding
(src/mturk_dash.py:90-99). -/
def baseRecord (a : Assignment) : Dict :=
  [("hit_id", .s a.hitId),
   ("assign_id", .s a.assignmentId),
   ("worker_id", .s a.workerId),
   ("assign_status", .s a.assignmentStatus),
   ("seconds", .n (tdSeconds (a.submitTime - a.acceptTime)))]

/-- Embedding of `parse_assignment` (src/mturk_dash.py:89-105): build the base
record, then try `parse_answer` and merge its dict with `result.update(more)`.
On any exception the record is returned as-is: the source line
`result['parsing_error']: e` is an annotation statement, not an assignment,
so nothing is stored on the error path. -/
def parse_assignment (jloads : String → Option Dict) (a : Assignment) : Dict :=
  match parse_answer jloads a.answer with
  | .ok more => dictUpdate (baseRecord a) more
  | .error _ => baseRecord a

/-- Embedding of `retrieve_assignments` (src/mturk_dash.py:123-136): for each
HIT the service returns one page of assignments (`batches`); every assignment
is parsed, tagged with the HIT type id, and appended to the running list. -/
def retrieve_assignments (jloads : String → Option Dict) (hit_type_id : String)
    (batches : List (List Assignment)) : List Dict :=
  batches.foldl
    (fun acc assigns =>
      acc ++ assigns.map (fun a => dictSet (parse_assignment jloads a) "hit_type_id" (.s hit_type_id)))
    []

/-- One response of a cursor-paged listing operation: the projected item list
and whether the response carries a (truthy) `NextToken`. -/
structure Page (α : Type) where
  items : List α
  hasNext : Bool
deriving DecidableEq, Repr

/-- The break condition `max_results is not None and len(results) >= max_results`. -/
def maxReached (m : Option Nat) (len : Nat) : Bool :=
  match m with
  | none => false
  | some mv => decide (mv ≤ len)

/-- The `while local_results and next_token` loop of `paginate`
(src/mturk_dash.py:32-41). `curr` is the page just fetched (its items are
already in `results`), `rest` the pages the service would return to further
calls, in order. Returns the final `results` list together with the number of
further listing calls the loop issues. When the loop asks for a page beyond
`rest` the service is modelled as out of data and the loop returns. -/
def paginateLoop (m : Option Nat) : List (Page α) → List α → Page α → List α × Nat
  | rest, results, curr =>
    if curr.items.isEmpty || !curr.hasNext then (results, 0)
    else if maxReached m results.length then (results, 0)
    else
      match rest with
      | [] => (results, 0)
      | p :: rest' =>
        let r := paginateLoop m rest' (results ++ p.items) p
        (r.1, r.2 + 1)

/-- Embedding of `paginate` (src/mturk_dash.py:24-42): issue the first listing
call (`first` is its response), then loop. Returns the accumulated results and
the total number of listing calls issued. -/
def paginate (m : Option Nat) (first : Page α) (rest : List (Page α)) : List α × Nat :=
  let r := paginateLoop m rest first.items first
  (r.1, r.2 + 1)

/-- Total number of items the service holds across the whole page chain. -/
def totalItems (first : Page α) (rest : List (Page α)) : Nat :=
  first.items.length + (rest.map (fun p => p.items.length)).sum

/-- A well-formed page chain: every page before the last is non-empty and
carries a continuation cursor, and the last page carries none. -/
def chainWF : Page α → List (Page α) → Prop
  | p, [] => p.hasNext = false
  | p, q :: rest => p.items ≠ [] ∧ p.hasNext = true ∧ chainWF q rest

/-- A row of the HIT dataframe `to_hit_df` builds, restricted to the columns
`to_hit_summary` reads (src/mturk_dash.py:52-67). -/
structure Hit where
  hit_id : String
  hit_type_id : String
  title : String
  hit_status : String
  review_status : String
deriving DecidableEq, Repr

/-- The `groupby` key of `to_hit_summary` (src/mturk_dash.py:71). -/
def hitKey (h : Hit) : String × String × String × String :=
  (h.hit_type_id, h.title, h.hit_status, h.review_status)

/-- A row of the summary dataframe, in its displayed column order
`['title', 'hit_status', 'review_status', 'n_hits', 'hit_type_id']`. -/
structure SummaryRow where
  title : String
  hit_status : String
  review_status : String
  n_hits : Nat
  hit_type_id : String
deriving DecidableEq, Repr

/-- The sort key `df2.sort_values(cols)` uses (src/mturk_dash.py:72-74): the
displayed columns, lexicographically in display order. Strings are compared
through their character lists, which is the code-point lexicographic order
Python uses. -/
def rowKey (r : SummaryRow) :
    Lex (List Char × Lex (List Char × Lex (List Char × Lex (Nat × List Char)))) :=
  toLex (r.title.data, toLex (r.hit_status.data,
    toLex (r.review_status.data, toLex (r.n_hits, r.hit_type_id.data))))

/-- Row order used by the final `sort_values` of `to_hit_summary`. -/
def rowLE (a b : SummaryRow) : Prop := rowKey a ≤ rowKey b

instance : DecidableRel rowLE := fun a b => inferInstanceAs (Decidable (rowKey a ≤ rowKey b))

/-- The distinct-`hit_id` count (`hit_id.nunique()`) of the group of `hits`
whose key is `k`. -/
def nHits (hits : List Hit) (k : String × String × String × String) : Nat :=
  (((hits.filter (fun h => hitKey h == k)).map Hit.hit_id).dedup).length

/-- The unsorted group rows of `to_hit_summary`: one row per distinct group
key, counting distinct `hit_id`s. -/
def summaryRows (hits : List Hit) : List SummaryRow :=
  ((hits.map hitKey).dedup).map
    (fun k => ⟨k.2.1, k.2.2.1, k.2.2.2, nHits hits k, k.1⟩)

/-- Embedding of `to_hit_summary` (src/mturk_dash.py:70-75): group by
`(hit_type_id, title, hit_status, review_status)`, count distinct `hit_id`s
per group, then sort by the displayed columns
`['title', 'hit_status', 'review_status', 'n_hits', 'hit_type_id']`. The sort
key contains the whole row, so the sorted order is unique and any comparison
sort produces it. -/
def to_hit_summary (hits : List Hit) : List SummaryRow :=
  (summaryRows hits).insertionSort rowLE

/-- A row of `assign_df` (src/mturk_dash.py:190): the `worker_id`, `hit_id`
and `assign_status` columns of the parsed-assignment dataframe. -/
structure AssignRow where
  worker_id : String
  hit_id : String
  assign_status : String
deriving DecidableEq, Repr

/-- Embedding of `worker_df` (src/mturk_dash.py:191): group `assign_df` by
`worker_id` (pandas sorts the group keys ascending) and count distinct
`hit_id`s per worker. -/
def worker_df (rows : List AssignRow) : List (String × Nat) :=
  (((rows.map AssignRow.worker_id).dedup).insertionSort (fun a b => a.data ≤ b.data)).map
    (fun w => (w, (((rows.filter (fun r => r.worker_id == w)).map AssignRow.hit_id).dedup).length))

/-! ### Lemmas about `paginate` -/

theorem paginateLoop_nil {α : Type} (m : Option Nat) (results : List α) (curr : Page α) :
    paginateLoop m [] results curr = (results, 0) := by
  simp only [paginateLoop]
  split_ifs <;> rfl

theorem paginateLoop_length_le {α : Type} (m : Nat) :
    ∀ (rest : List (Page α)) (results : List α) (curr : Page α),
      (∀ p ∈ rest, p.items.length ≤ 100) →
      (paginateLoop (some m) rest results curr).1.length ≤ max results.length (m + 99)
  | [], results, curr, _ => by
    rw [paginateLoop_nil]
    exact le_max_left _ _
  | p :: rest', results, curr, hrest => by
    simp only [paginateLoop]
    split_ifs with h1 h2
    · exact le_max_left _ _
    · exact le_max_left _ _
    · have hm : ¬ (m ≤ results.length) := by
        simpa [maxReached] using h2
      have hp : p.items.length ≤ 100 := hrest p (List.mem_cons_self p rest')
      have ih := paginateLoop_length_le m rest' (results ++ p.items) p
        (fun q hq => hrest q (List.mem_cons_of_mem p hq))
      have hlen : (results ++ p.items).length ≤ m + 99 := by
        simp only [List.length_append]
        omega
      exact le_trans (le_trans ih (max_le hlen le_rfl)) (le_max_right _ _)

theorem paginateLoop_all {α : Type} (m : Nat) :
    ∀ (rest : List (Page α)) (results : List α) (curr : Page α),
      chainWF curr rest →
      results.length + (rest.map (fun p => p.items.length)).sum < m →
      (paginateLoop (some m) rest results curr).1 = results ++ (rest.map Page.items).flatten
  | [], results, curr, _, _ => by
    rw [paginateLoop_nil]
    simp
  | p :: rest', results, curr, hwf, hlen => by
    obtain ⟨hne, hnx, hwf'⟩ := hwf
    have hempty : curr.items.isEmpty = false := by
      simpa [List.isEmpty_iff] using hne
    have hm : maxReached (some m) results.length = false := by
      simp only [maxReached, decide_eq_false_iff_not]
      simp only [List.map_cons, List.sum_cons] at hlen
      omega
    simp only [paginateLoop, hempty, hnx, hm, Bool.not_true, Bool.or_false, if_false,
      Bool.false_eq_true, if_neg]
    have hlen' : (results ++ p.items).length
        + (rest'.map (fun q => q.items.length)).sum < m := by
      simp only [List.length_append]
      simp only [List.map_cons, List.sum_cons] at hlen
      omega
    have ih := paginateLoop_all m rest' (results ++ p.items) p hwf' hlen'
    simp only [ih, List.map_cons, List.flatten_cons, List.append_assoc]

theorem paginateLoop_calls {α : Type} (m : Option Nat) :
    ∀ (rest : List (Page α)) (results : List α) (curr : Page α) (k : Nat)
      (hk : k < (curr :: rest).length),
      (((curr :: rest).get ⟨k, hk⟩).items = [] ∨ ((curr :: rest).get ⟨k, hk⟩).hasNext = false) →
      (paginateLoop m rest results curr).2 ≤ k
  | [], results, curr, k, _, _ => by
    rw [paginateLoop_nil]
    exact Nat.zero_le _
  | p :: rest', results, curr, k, hk, hbad => by
    simp only [paginateLoop]
    split_ifs with h1 h2
    · exact Nat.zero_le _
    · exact Nat.zero_le _
    · have hcurr : ¬ (curr.items = [] ∨ curr.hasNext = false) := by
        intro h
        apply h1
        rcases h with h | h
        · simp [List.isEmpty_iff, h]
        · simp [h]
      match k with
      | 0 => exact absurd hbad hcurr
      | k' + 1 =>
        have hk' : k' < (p :: rest').length := by
          simpa [Nat.succ_lt_succ_iff] using hk
        have hbad' : (((p :: rest').get ⟨k', hk'⟩).items = []
            ∨ ((p :: rest').get ⟨k', hk'⟩).hasNext = false) := hbad
        have ih := paginateLoop_calls m rest' (results ++ p.items) p k' hk' hbad'
        simpa using Nat.succ_le_succ ih

/-- C3 counterexample: with maximum `M = 1` and a single page of 2 items the
loop returns both items, so `paginate` does not return at most `M` items: the
accumulated count is only checked before fetching another page and the result
is never truncated. -/
theorem paginate_exceeds_max :
    (paginate (some 1) (Page.mk [0, 1] false) ([] : List (Page Nat))).1.length = 2 ∧
    ¬ ((paginate (some 1) (Page.mk [0, 1] false) ([] : List (Page Nat))).1.length ≤ 1) := by
  decide

/-- C3 amended: for every maximum `M` and every page chain, (a) provided every
page holds at most 100 items (the fixed page size the code requests),
`paginate` returns at most `max 100 (M + 99)` items — it can overshoot `M` by
up to one page; and (b) it returns every available item when the total across
the chain is below `M`, provided every page before the last is non-empty and
carries a continuation cursor (a zero-item page or a missing cursor stops the
traversal by design). -/
theorem paginate_bounded_amended {α : Type} (m : Nat) (first : Page α)
    (rest : List (Page α)) :
    ((∀ p ∈ first :: rest, p.items.length ≤ 100) →
      (paginate (some m) first rest).1.length ≤ max 100 (m + 99)) ∧
    (chainWF first rest → totalItems first rest < m →
      (paginate (some m) first rest).1 = first.items ++ (rest.map Page.items).flatten) := by
  constructor
  · intro hpages
    have h := paginateLoop_length_le m rest first.items first
      (fun q hq => hpages q (List.mem_cons_of_mem first hq))
    have hfirst : first.items.length ≤ 100 := hpages first (List.mem_cons_self first rest)
    refine le_trans h (max_le ?_ (le_max_right _ _))
    exact le_trans hfirst (le_max_left _ _)
  · intro hwf htot
    exact paginateLoop_all m rest first.items first hwf htot

theorem paginate_bounded_amended_witness :
    (paginate (some 5) (Page.mk [0] true) [Page.mk [1] false]).1.length ≤ max 100 (5 + 99) ∧
    (paginate (some 5) (Page.mk [0] true) [Page.mk [1] false]).1
      = [0] ++ ([Page.mk [1] false].map (Page.items (α := Nat))).flatten := by
  have h := paginate_bounded_amended 5 (Page.mk [0] true) [Page.mk [1] false]
  refine ⟨h.1 ?_, h.2 ?_ ?_⟩
  · intro p hp
    fin_cases hp <;> decide
  · exact ⟨by decide, rfl, rfl⟩
  · decide

/-- C4: for every maximum and every page chain, as soon as a page yields zero
items or carries no continuation cursor, no further listing call is issued:
the total number of listing calls is at most the bad page's index plus one. -/
theorem paginate_stops_after_empty_or_cursorless {α : Type} (m : Option Nat)
    (first : Page α) (rest : List (Page α)) (k : Nat) (hk : k < (first :: rest).length)
    (hbad : ((first :: rest).get ⟨k, hk⟩).items = []
      ∨ ((first :: rest).get ⟨k, hk⟩).hasNext = false) :
    (paginate m first rest).2 ≤ k + 1 := by
  have h := paginateLoop_calls m rest first.items first k hk hbad
  simpa [paginate] using Nat.succ_le_succ h

theorem paginate_stops_witness :
    (paginate (some 50) (Page.mk [0] true) [Page.mk [] true, Page.mk [1] true]).2 ≤ 1 + 1 := by
  exact paginate_stops_after_empty_or_cursorless (some 50) (Page.mk [0] true)
    [Page.mk [] true, Page.mk [1] true] 1 (by decide) (Or.inl rfl)

/-! ### Lemmas about dicts and answer parsing -/

theorem dictGet_nil (k : String) : dictGet [] k = none := rfl

theorem dictGet_cons (k₁ : String) (v₁ : PyVal) (rest : Dict) (k : String) :
    dictGet ((k₁, v₁) :: rest) k = if k₁ = k then some v₁ else dictGet rest k := by
  by_cases h : k₁ = k
  · rw [if_pos h, dictGet, List.find?_cons_of_pos]
    · rfl
    · simpa using h
  · rw [if_neg h, dictGet, List.find?_cons_of_neg, dictGet]
    simpa using h

theorem dictGet_dictSet (d : Dict) (k k' : String) (v : PyVal) :
    dictGet (dictSet d k v) k' = if k = k' then some v else dictGet d k' := by
  induction d with
  | nil =>
    show dictGet [(k, v)] k' = _
    rw [dictGet_cons]
  | cons p rest ih =>
    obtain ⟨k₁, v₁⟩ := p
    by_cases h₁ : k₁ = k
    · rw [show dictSet ((k₁, v₁) :: rest) k v = (k, v) :: rest from by
        simp [dictSet, h₁]]
      subst h₁
      rw [dictGet_cons, dictGet_cons]
      split_ifs <;> rfl
    · rw [show dictSet ((k₁, v₁) :: rest) k v = (k₁, v₁) :: dictSet rest k v from by
        simp [dictSet, h₁]]
      rw [dictGet_cons, dictGet_cons, ih]
      split_ifs with h₂ h₃ <;> simp_all

theorem dictGet_append (d₁ d₂ : Dict) (k : String) :
    dictGet (d₁ ++ d₂) k = (dictGet d₁ k).or (dictGet d₂ k) := by
  induction d₁ with
  | nil => simp [dictGet_nil, Option.or]
  | cons p rest ih =>
    obtain ⟨k₁, v₁⟩ := p
    rw [List.cons_append, dictGet_cons, dictGet_cons]
    by_cases h : k₁ = k
    · simp [h, Option.or]
    · simp [h, ih]

theorem dictGet_dictUpdate (m : Dict) :
    ∀ (d : Dict) (k : String),
      dictGet (dictUpdate d m) k = (dictGet m.reverse k).or (dictGet d k) := by
  induction m with
  | nil => intro d k; simp [dictUpdate, dictGet_nil, Option.or]
  | cons p m' ih =>
    intro d k
    obtain ⟨k₁, v₁⟩ := p
    have hstep : dictUpdate d ((k₁, v₁) :: m') = dictUpdate (dictSet d k₁ v₁) m' := rfl
    rw [hstep, ih, List.reverse_cons, dictGet_append, dictGet_dictSet, dictGet_cons,
      dictGet_nil]
    cases hmv : dictGet m'.reverse k with
    | some v => simp [Option.or]
    | none => by_cases h : k₁ = k <;> simp [h, Option.or]

theorem foldl_append_map {β γ : Type} (f : β → γ) :
    ∀ (batches : List (List β)) (acc : List γ),
      batches.foldl (fun acc b => acc ++ b.map f) acc = acc ++ batches.flatten.map f
  | [], acc => by simp
  | b :: batches', acc => by
    simp only [List.foldl_cons, foldl_append_map f batches' (acc ++ b.map f),
      List.flatten_cons, List.map_append, List.append_assoc]

/-- `retrieve_assignments` is exactly a map over the concatenated batches:
every raw assignment, decodable or not, yields exactly one record. -/
theorem retrieve_assignments_eq_map (jloads : String → Option Dict) (tid : String)
    (batches : List (List Assignment)) :
    retrieve_assignments jloads tid batches
      = batches.flatten.map
          (fun a => dictSet (parse_assignment jloads a) "hit_type_id" (.s tid)) := by
  simpa [retrieve_assignments] using
    foldl_append_map (fun a => dictSet (parse_assignment jloads a) "hit_type_id" (.s tid))
      batches []

/-- Did answer extraction fail for this assignment? -/
def extractionFailed (jloads : String → Option Dict) (a : Assignment) : Bool :=
  match parse_answer jloads a.answer with
  | .error _ => true
  | .ok _ => false

/-- C1: for a batch of submissions in which exactly one has a malformed answer
envelope, the retrieval loop returns exactly one record per raw submission
(the malformed one included, so none is dropped and the loop never aborts),
and every submission whose answer decodes to `more` contributes its fully
decoded record (base fields updated with the payload, tagged with the HIT
type id). -/
theorem retrieve_assignments_isolation (jloads : String → Option Dict) (tid : String)
    (batches : List (List Assignment))
    (h : (batches.flatten.filter (extractionFailed jloads)).length = 1) :
    (retrieve_assignments jloads tid batches).length = batches.flatten.length ∧
    retrieve_assignments jloads tid batches
      = batches.flatten.map
          (fun a => dictSet (parse_assignment jloads a) "hit_type_id" (.s tid)) ∧
    ∀ a ∈ batches.flatten, ∀ more, parse_answer jloads a.answer = .ok more →
      dictSet (dictUpdate (baseRecord a) more) "hit_type_id" (.s tid)
        ∈ retrieve_assignments jloads tid batches := by
  refine ⟨?_, retrieve_assignments_eq_map jloads tid batches, ?_⟩
  · rw [retrieve_assignments_eq_map]
    exact List.length_map _ _
  · intro a ha more hm
    rw [retrieve_assignments_eq_map]
    refine List.mem_map.mpr ⟨a, ha, ?_⟩
    simp [parse_assignment, hm]

theorem retrieve_assignments_isolation_witness :
    (retrieve_assignments (fun _ => some []) "T"
        [[Assignment.mk 0 5 "h1" "a1" "w1" "S" (.wellFormed [[ChildNode.text "t"]]),
          Assignment.mk 0 5 "h2" "a2" "w2" "S" (.wellFormed [])]]).length
      = ([[Assignment.mk 0 5 "h1" "a1" "w1" "S" (.wellFormed [[ChildNode.text "t"]]),
          Assignment.mk 0 5 "h2" "a2" "w2" "S" (.wellFormed [])]].flatten).length := by
  exact (retrieve_assignments_isolation (fun _ => some []) "T" _ (by decide)).1

/-- C2 (code defect): for a submission whose envelope holds zero free-text
fields, decoding fails, yet the returned record carries no `parsing_error`
key at all and is exactly the base record: the source line
`result['parsing_error']: e` is an annotation statement, not an assignment,
so the error is silently dropped instead of being stored. -/
theorem parsing_error_never_stored :
    parse_assignment (fun _ => none)
        (Assignment.mk 0 10 "h1" "a1" "w1" "Submitted" (.wellFormed []))
      = baseRecord (Assignment.mk 0 10 "h1" "a1" "w1" "Submitted" (.wellFormed [])) ∧
    dictGet (parse_assignment (fun _ => none)
        (Assignment.mk 0 10 "h1" "a1" "w1" "Submitted" (.wellFormed []))) "parsing_error"
      = none := by
  exact ⟨rfl, by decide⟩

/-- C5: an envelope with two or more free-text fields always makes
`parse_answer` raise its assertion error before producing any value — the
`assert len(free_text_nodes) <= 1` fires before any field is read, so no
field is silently selected or merged. -/
theorem parse_answer_multiplicity_fail_fast (jloads : String → Option Dict)
    (nodes : List FreeTextNode) (h : 2 ≤ nodes.length) :
    parse_answer jloads (.wellFormed nodes) = .error .assertionError := by
  simp only [parse_answer]
  rw [if_neg (by omega)]

theorem parse_answer_multiplicity_witness :
    parse_answer (fun _ => some [])
        (.wellFormed [[ChildNode.text "a"], [ChildNode.text "b"]])
      = .error .assertionError :=
  parse_answer_multiplicity_fail_fast (fun _ => some [])
    [[ChildNode.text "a"], [ChildNode.text "b"]] (by decide)

/-- C6 (code defect): for accept-time 0 and submit-time 86400 — exactly one
day, so accept ≤ submit — the claim says the `seconds` field equals 86400,
but the code computes the `seconds` component of the timedelta, which drops
whole days: the stored value is 0. -/
theorem seconds_field_drops_days :
    dictGet (parse_assignment (fun _ => none)
        (Assignment.mk 0 86400 "h1" "a1" "w1" "Submitted" (.wellFormed []))) "seconds"
      = some (.n 0) ∧ ((86400 : Int) - 0) ≠ 0 := by decide

/-- C10: when answer decoding succeeds, the payload's pairs are merged into
the same flat record as the base fields via `dict.update`: a lookup in the
returned record finds the payload's (last) binding for a key first and falls
back to the base field only when the payload does not bind it — so a payload
key equal to a base field name replaces the base value, and the base fields
are not kept separate from the payload. -/
theorem parse_assignment_payload_overrides (jloads : String → Option Dict)
    (a : Assignment) (more : Dict) (h : parse_answer jloads a.answer = .ok more) :
    ∀ k, dictGet (parse_assignment jloads a) k
      = (dictGet more.reverse k).or (dictGet (baseRecord a) k) := by
  intro k
  simp only [parse_assignment, h]
  exact dictGet_dictUpdate more (baseRecord a) k

theorem parse_assignment_payload_overrides_witness :
    dictGet (parse_assignment (fun _ => some [("hit_id", .s "X")])
        (Assignment.mk 0 5 "h" "a" "w" "S" (.wellFormed [[ChildNode.text "t"]]))) "hit_id"
      = some (.s "X") := by
  have h := parse_assignment_payload_overrides (fun _ => some [("hit_id", .s "X")])
    (Assignment.mk 0 5 "h" "a" "w" "S" (.wellFormed [[ChildNode.text "t"]]))
    [("hit_id", .s "X")] rfl
  rw [h "hit_id"]
  decide

/-! ### Lemmas about the summaries -/

theorem rowKey_inj {a b : SummaryRow} (h : rowKey a = rowKey b) : a = b := by
  obtain ⟨⟨t₁⟩, ⟨s₁⟩, ⟨r₁⟩, n₁, ⟨y₁⟩⟩ := a
  obtain ⟨⟨t₂⟩, ⟨s₂⟩, ⟨r₂⟩, n₂, ⟨y₂⟩⟩ := b
  simp only [rowKey, toLex_inj, Prod.mk.injEq] at h
  simp_all

instance : IsTotal SummaryRow rowLE :=
  ⟨fun a b => le_total (rowKey a) (rowKey b)⟩

instance : IsTrans SummaryRow rowLE :=
  ⟨fun _ _ _ h₁ h₂ => le_trans h₁ h₂⟩

instance : IsAntisymm SummaryRow rowLE :=
  ⟨fun _ _ h₁ h₂ => rowKey_inj (le_antisymm h₁ h₂)⟩

/-- The claim's intended comparison, following the spec's words: lexicographic
on the grouping key tuple `(type id, title, status, review status)`, in that
order. It is to be compared with the code's sort order `rowLE`. -/
def specGroupKey (r : SummaryRow) :
    Lex (List Char × Lex (List Char × Lex (List Char × List Char))) :=
  toLex (r.hit_type_id.data, toLex (r.title.data,
    toLex (r.hit_status.data, r.review_status.data)))

/-- The order on summary rows the claim asserts. -/
def specGroupKeyLE (a b : SummaryRow) : Prop := specGroupKey a ≤ specGroupKey b

instance : DecidableRel specGroupKeyLE :=
  fun a b => inferInstanceAs (Decidable (specGroupKey a ≤ specGroupKey b))

/-- C7 counterexample: input with two groups, (type "tb", title "a") and
(type "ta", title "b"). `to_hit_summary` sorts by title and outputs the
"tb" group first, so the output is not sorted ascending by the grouping key
tuple, under which "ta" comes first. -/
theorem to_hit_summary_not_sorted_by_group_key :
    to_hit_summary [⟨"h1", "tb", "a", "s", "r"⟩, ⟨"h2", "ta", "b", "s", "r"⟩]
      = [⟨"a", "s", "r", 1, "tb"⟩, ⟨"b", "s", "r", 1, "ta"⟩] ∧
    ¬ List.Sorted specGroupKeyLE
        (to_hit_summary [⟨"h1", "tb", "a", "s", "r"⟩, ⟨"h2", "ta", "b", "s", "r"⟩]) := by
  constructor
  · decide
  · decide

/-- C7 amended: for every collection of WorkUnits, the summary produced by
`to_hit_summary` is sorted ascending by the displayed column tuple
`(title, status, review status, distinct-unit count, type identifier)` —
the sort key the code passes to `sort_values` — not by the grouping key
tuple; and it consists of exactly the group rows. -/
theorem to_hit_summary_sorted_amended (hits : List Hit) :
    List.Sorted rowLE (to_hit_summary hits) ∧
    List.Perm (to_hit_summary hits) (summaryRows hits) :=
  ⟨List.sorted_insertionSort rowLE (summaryRows hits),
   List.perm_insertionSort rowLE (summaryRows hits)⟩

/-- The distinct-unit count of a group does not depend on the input order. -/
theorem nHits_perm {l l' : List Hit} (h : List.Perm l l') (k : String × String × String × String) :
    nHits l k = nHits l' k :=
  (((h.filter (fun hh => hitKey hh == k)).map Hit.hit_id).dedup).length_eq

/-- The group rows of permuted inputs are permutations of each other. -/
theorem summaryRows_perm {l l' : List Hit} (h : List.Perm l l') :
    List.Perm (summaryRows l) (summaryRows l') := by
  unfold summaryRows
  have hmap : ((l.map hitKey).dedup).map
        (fun k => (⟨k.2.1, k.2.2.1, k.2.2.2, nHits l k, k.1⟩ : SummaryRow))
      = ((l.map hitKey).dedup).map
        (fun k => (⟨k.2.1, k.2.2.1, k.2.2.2, nHits l' k, k.1⟩ : SummaryRow)) :=
    List.map_congr_left (fun k _ => by rw [nHits_perm h k])
  rw [hmap]
  exact ((h.map hitKey).dedup).map _

/-- C8: the WorkUnit summary is invariant under any permutation of the input
order, and re-running it on the same input yields the identical sorted
output. -/
theorem to_hit_summary_perm_invariant (l l' : List Hit) (h : List.Perm l l') :
    to_hit_summary l = to_hit_summary l' ∧ to_hit_summary l = to_hit_summary l := by
  refine ⟨?_, rfl⟩
  have hperm : List.Perm (to_hit_summary l) (to_hit_summary l') :=
    (List.perm_insertionSort rowLE (summaryRows l)).trans
      ((summaryRows_perm h).trans (List.perm_insertionSort rowLE (summaryRows l')).symm)
  exact List.eq_of_perm_of_sorted hperm
    (List.sorted_insertionSort rowLE (summaryRows l))
    (List.sorted_insertionSort rowLE (summaryRows l'))

theorem to_hit_summary_perm_invariant_witness :
    to_hit_summary [⟨"h1", "tb", "a", "s", "r"⟩, ⟨"h2", "ta", "b", "s", "r"⟩]
      = to_hit_summary [⟨"h2", "ta", "b", "s", "r"⟩, ⟨"h1", "tb", "a", "s", "r"⟩] :=
  (to_hit_summary_perm_invariant
    [⟨"h1", "tb", "a", "s", "r"⟩, ⟨"h2", "ta", "b", "s", "r"⟩]
    [⟨"h2", "ta", "b", "s", "r"⟩, ⟨"h1", "tb", "a", "s", "r"⟩] (by decide)).1

/-- C9: every row of the worker summary pairs a worker with the number of
distinct WorkUnit identifiers among that worker's submissions — the
cardinality of the set of referenced `hit_id`s, not the raw submission
count. -/
theorem worker_df_counts_distinct_hits (rows : List AssignRow) (w : String) (c : Nat)
    (h : (w, c) ∈ worker_df rows) :
    c = ((rows.filter (fun r => r.worker_id == w)).map AssignRow.hit_id).toFinset.card := by
  unfold worker_df at h
  obtain ⟨w', _, heq⟩ := List.mem_map.mp h
  have h1 : w' = w := congrArg Prod.fst heq
  have h2 : (((rows.filter (fun r => r.worker_id == w')).map AssignRow.hit_id).dedup).length
      = c := congrArg Prod.snd heq
  subst h1
  rw [List.card_toFinset, ← h2]

theorem worker_df_counts_distinct_hits_witness :
    2 = ((([⟨"W1", "h1", "S"⟩, ⟨"W1", "h1", "S"⟩, ⟨"W1", "h2", "S"⟩]
        : List AssignRow).filter (fun r => r.worker_id == "W1")).map
          AssignRow.hit_id).toFinset.card :=
  worker_df_counts_distinct_hits
    [⟨"W1", "h1", "S"⟩, ⟨"W1", "h1", "S"⟩, ⟨"W1", "h2", "S"⟩] "W1" 2 (by decide)

end MturkDash
